import Mathlib

/-!
Shallow embedding of the YouTube transcript pipeline
(`learning/scripts/youtube/transcript-to-markdown.ts`, the Next.js
transcript route, `transcribe-audio.ts` and `download-video-simple.ts`).

Numbers that JavaScript treats as IEEE doubles are modelled as exact
rationals (ℚ); strings are Lean `String`s (one `Char` per JS code unit on
the ASCII inputs considered here); `undefined` fields are `Option`;
thrown exceptions are `Except` errors.
-/

namespace Pipeline

/-! ### Batch Transcription Client: inline vs object-storage routing
Source: `transcribe-audio.ts`, `transcribeAudio`:
`const fileSizeMB = stats.size / (1024 * 1024); if (fileSizeMB > 10) { uploadToGCS ... } else { audioContent = ... }` -/

inductive SubmissionRoute where
  | inline
  | gcs
deriving DecidableEq, Repr

/-- The field `stats.size` is a byte count; the code converts to MB as an exact
division (JS double arithmetic is exact on these magnitudes) and branches
on `fileSizeMB > 10`. -/
def chooseRoute (sizeBytes : ℕ) : SubmissionRoute :=
  let fileSizeMB : ℚ := (sizeBytes : ℚ) / (1024 * 1024)
  if fileSizeMB > 10 then SubmissionRoute.gcs else SubmissionRoute.inline

/-! ### Document Formatter: minimum-length acceptance gate
Source: transcript route `POST`:
`const markdownContent = textPart.text.trim(); if (!markdownContent || markdownContent.length < 100) { throw new Error('Received empty or very short markdown from Gemini'); }`
and the identical check in `transcript-to-markdown.ts`. On acceptance the
trimmed content is written verbatim (`fs.writeFile(outputPath, markdownContent)`). -/

def degenerateResponseMsg : String :=
  "Received empty or very short markdown from Gemini"

/-- JS `String.prototype.trim()`: strip leading and trailing whitespace
(the inputs considered here use ASCII whitespace, where JS and
`Char.isWhitespace` agree). -/
def jsTrim (s : String) : String :=
  String.mk (((s.data.dropWhile Char.isWhitespace).reverse.dropWhile Char.isWhitespace).reverse)

/-- The formatter's post-extraction gate: trim the completion, reject
under 100 characters, otherwise the trimmed text is what gets written.
(`!markdownContent` is subsumed by the length test: an empty string has
length 0 < 100.) -/
def acceptMarkdown (raw : String) : Except String String :=
  let markdownContent := jsTrim raw
  if markdownContent.length < 100 then Except.error degenerateResponseMsg
  else Except.ok markdownContent

/-! ### Timestamp formatting
Source: `formatTimestamp` (identical in `transcript-to-markdown.ts` and the
transcript route):
`const h = Math.floor(seconds / 3600); const m = Math.floor((seconds % 3600) / 60); const s = Math.floor(seconds % 60);`
`if (h > 0) return h + ':' + pad2(m) + ':' + pad2(s); return m + ':' + pad2(s);`
JS `%` is the remainder with the dividend's sign: `a - b * trunc(a / b)`;
`Math.floor` rounds toward negative infinity; `padStart(2, '0')` left-pads
with zeros up to length 2. -/

/-- JS `Math.trunc`-style truncation of a rational toward zero. -/
def jsTrunc (q : ℚ) : ℤ :=
  if 0 ≤ q then ⌊q⌋ else ⌈q⌉

/-- JS `%` on numbers: `a - b * trunc(a / b)`. -/
def jsMod (a b : ℚ) : ℚ :=
  a - b * (jsTrunc (a / b) : ℚ)

/-- JS `String.prototype.padStart(2, '0')`. -/
def padStart2 (s : String) : String :=
  if s.length < 2 then String.mk (List.replicate (2 - s.length) '0') ++ s else s

def formatTimestamp (seconds : ℚ) : String :=
  let h : ℤ := ⌊seconds / 3600⌋
  let m : ℤ := ⌊jsMod seconds 3600 / 60⌋
  let s : ℤ := ⌊jsMod seconds 60⌋
  if h > 0 then
    toString h ++ ":" ++ padStart2 (toString m) ++ ":" ++ padStart2 (toString s)
  else
    toString m ++ ":" ++ padStart2 (toString s)

/-- Rendering described by the spec: `M:SS` below one hour, `H:MM:SS`
otherwise, with minutes and seconds zero-padded to two digits but the
leading unit unpadded. Stated for comparison with `formatTimestamp`. -/
def formatTimestampSpec (seconds : ℚ) : String :=
  let n : ℤ := ⌊seconds⌋
  if n < 3600 then
    toString (n / 60) ++ ":" ++ padStart2 (toString (n % 60))
  else
    toString (n / 3600) ++ ":" ++ padStart2 (toString (n % 3600 / 60)) ++ ":" ++
      padStart2 (toString (n % 60))

/-! ### Segment Normalizer
Source: `transcript-to-markdown.ts`, `transcriptToMarkdown`, step 2:
`rawTranscript.map((item, index) => { if (!item || typeof item.offset === 'undefined' || typeof item.duration === 'undefined') throw ...; return { text: item.text || '', timestamp: item.offset / 1000, duration: item.duration / 1000 }; })`
followed by `totalDuration = lastSegment.timestamp + lastSegment.duration`.
Error messages are modelled structurally (`NormError`) so that the index
carried by `Invalid transcript segment at index ${index}` is preserved. -/

/-- A raw caption entry as delivered by the caption service; every field
may be `undefined` at runtime. -/
structure RawItem where
  text : Option String
  offset : Option ℚ
  duration : Option ℚ
deriving DecidableEq, Repr

structure NormalizedSegment where
  text : String
  timestamp : ℚ
  duration : ℚ
deriving DecidableEq, Repr

inductive NormError where
  | emptyTranscript
  | invalidSegment (index : ℕ)
  | noSegments
deriving DecidableEq, Repr

/-- The `.map` callback with its index argument, including the `!item`
guard (a hole in the array maps to `none`). JS `item.text || ''` yields
`''` for `undefined`, `null` and `''` alike, i.e. `Option.getD` with
default `""` on the modelled values. Throwing inside `.map` aborts the
whole traversal at the first offending index. -/
def mapSegments : ℕ → List (Option RawItem) → Except NormError (List NormalizedSegment)
  | _, [] => Except.ok []
  | index, item :: rest =>
    match item with
    | none => Except.error (NormError.invalidSegment index)
    | some it =>
      match it.offset, it.duration with
      | some o, some d =>
        (mapSegments (index + 1) rest).map
          (fun tl => { text := it.text.getD "", timestamp := o / 1000, duration := d / 1000 } :: tl)
      | some _, none => Except.error (NormError.invalidSegment index)
      | none, _ => Except.error (NormError.invalidSegment index)

/-- Steps 2's surrounding checks: empty transcript rejected up front,
then the map, then `totalDuration = lastSegment.timestamp + lastSegment.duration`.
(The `!lastSegment || typeof lastSegment.timestamp === 'undefined'` guard
cannot fire on a non-empty mapped list and is represented by the
`noSegments` branch.) -/
def normalizeTranscript (rawTranscript : List (Option RawItem)) :
    Except NormError (List NormalizedSegment × ℚ) :=
  if rawTranscript.length = 0 then Except.error NormError.emptyTranscript
  else
    match mapSegments 0 rawTranscript with
    | Except.error e => Except.error e
    | Except.ok segs =>
      match segs.getLast? with
      | none => Except.error NormError.noSegments
      | some lastSegment => Except.ok (segs, lastSegment.timestamp + lastSegment.duration)

/-! ### Caption Fetcher: language fallback
Source: transcript route `POST`, step 1:
`const languageCodes = ['en', 'en-US', 'en-GB', undefined];`
`for (const lang of languageCodes) { try { const rawTranscript = lang ? await fetchTranscript(videoId, {lang}) : await fetchTranscript(videoId); if (!rawTranscript || rawTranscript.length === 0) throw 'Transcript is empty'; transcriptText = rawTranscript.map(item => item.text).join(' '); if (!transcriptText || transcriptText.trim().length < 50) throw 'Transcript is too short'; break; } catch (error) { lastError = error; continue; } }`
`if (!transcriptText || transcriptText.trim().length < 50) throw 'Failed to fetch transcript... Last error: ' + lastError.message;`
The remote call is abstracted as an oracle `fetch : Option String → Except String (List TranscriptItem)`
(`none` = no language option passed; an `error` is a thrown exception). -/

/-- An element of the list returned by `YoutubeTranscript.fetchTranscript`;
only the `text` field is read by this route. -/
structure TranscriptItem where
  text : String
deriving DecidableEq, Repr

def languageCodes : List (Option String) :=
  [some "en", some "en-US", some "en-GB", none]

def emptyTranscriptMsg : String := "Transcript is empty"

def tooShortMsg : String := "Transcript is too short"

def failedFetchMsg (lastError : Option String) : String :=
  "Failed to fetch transcript. The video may not have captions available. Last error: " ++
    lastError.getD "Unknown error"

/-- One iteration of the `try` block for a single language candidate:
fetch, reject an empty list, join the texts with single spaces, reject
when the trimmed join is under 50 characters, otherwise succeed with the
joined text. (`!transcriptText` is subsumed: the empty string trims to
length 0 < 50.) -/
def attemptCandidate (fetch : Option String → Except String (List TranscriptItem))
    (lang : Option String) : Except String String := do
  let rawTranscript ← fetch lang
  if rawTranscript.length = 0 then Except.error emptyTranscriptMsg
  else
    let transcriptText := String.intercalate " " (rawTranscript.map (fun item => item.text))
    if (jsTrim transcriptText).length < 50 then Except.error tooShortMsg
    else Except.ok transcriptText

/-- The fallback loop over the remaining candidates, threading `lastError`.
When a candidate's `try` block throws, the `catch` records the error and
`continue`s; on success the loop `break`s with the text. After the loop,
`transcriptText` can pass the final length check only if some candidate
succeeded, so exhausting the list reaches the final `throw`. -/
def fetchLoop (fetch : Option String → Except String (List TranscriptItem)) :
    List (Option String) → Option String → Except String String
  | [], lastError => Except.error (failedFetchMsg lastError)
  | lang :: rest, lastError =>
    match attemptCandidate fetch lang with
    | Except.ok transcriptText => Except.ok transcriptText
    | Except.error e => fetchLoop fetch rest (some e)

/-- Step 1 of the route: run the fallback over `languageCodes`. -/
def fetchTranscriptText (fetch : Option String → Except String (List TranscriptItem)) :
    Except String String :=
  fetchLoop fetch languageCodes none

/-- Instrumented variant of `fetchLoop` that also records, in order, every
language candidate on which `fetch` is invoked. Its result component
coincides with `fetchLoop` (proved below); the trace makes "never
attempts a later candidate" expressible. -/
def fetchLoopTrace (fetch : Option String → Except String (List TranscriptItem)) :
    List (Option String) → Option String → Except String String × List (Option String)
  | [], lastError => (Except.error (failedFetchMsg lastError), [])
  | lang :: rest, lastError =>
    match attemptCandidate fetch lang with
    | Except.ok transcriptText => (Except.ok transcriptText, [lang])
    | Except.error e =>
      let (r, t) := fetchLoopTrace fetch rest (some e)
      (r, lang :: t)

/-! ### Batch Transcription Client: segment timeline reconstruction
Source: `transcribe-audio.ts`, `transcribeAudio`, result processing:
`let lastEndTime = 0; for (const result of response_data.results || []) { const alternative = result.alternatives?.[0]; if (!alternative) continue; ... let endSecs = 0; if (result.resultEndOffset) { if (typeof result.resultEndOffset === 'string') endSecs = parseFloat(result.resultEndOffset.replace('s', '')); else endSecs = Number(result.resultEndOffset.seconds || 0) + Number(result.resultEndOffset.nanos || 0) / 1e9; } segments.push({ text, start: lastEndTime, end: endSecs, confidence: alternative.confidence || 0 }); lastEndTime = endSecs; }` -/

/-- The field `resultEndOffset` arrives either as a string such as `"9.250s"` or as
a structured `{seconds, nanos}` pair (either member may be absent). -/
inductive EndOffset where
  | str (s : String)
  | obj (seconds : Option ℤ) (nanos : Option ℤ)
deriving DecidableEq, Repr

structure RecAlternative where
  transcript : Option String
  confidence : Option ℚ
deriving DecidableEq, Repr

structure RecResult where
  alternatives : List RecAlternative
  resultEndOffset : Option EndOffset
deriving DecidableEq, Repr

structure SpeechSegment where
  text : String
  start : ℚ
  segEnd : ℚ
  confidence : ℚ
deriving DecidableEq, Repr

/-- Split a character list at every `'.'` (JS `split`-style; used to read
a decimal literal). -/
def splitOnDot : List Char → List (List Char)
  | [] => [[]]
  | c :: cs =>
    if c = '.' then [] :: splitOnDot cs
    else
      match splitOnDot cs with
      | [] => [[c]]
      | r :: rs => (c :: r) :: rs

/-- Digit run to a natural number (most significant first), `none` when a
non-digit appears. -/
def digitsToNat? : List Char → Option ℕ
  | [] => some 0
  | c :: cs =>
    if c.isDigit then
      (digitsToNat? cs).map (fun n => (c.toNat - '0'.toNat) * 10 ^ cs.length + n)
    else none

/-- JS `parseFloat` restricted to the plain decimal literals
(`digits` or `digits.digits`) produced by the speech service; inputs
outside that shape are out of the modelled domain and yield 0. -/
def parseFloatQ (s : String) : ℚ :=
  match splitOnDot s.data with
  | [intPart] => ((digitsToNat? intPart).getD 0 : ℚ)
  | [intPart, fracPart] =>
    ((digitsToNat? intPart).getD 0 : ℚ) +
      ((digitsToNat? fracPart).getD 0 : ℚ) / (10 : ℚ) ^ fracPart.length
  | _ => 0

/-- JS `String.prototype.replace('s', '')`: remove the first occurrence
of `'s'` only. -/
def removeFirstS : List Char → List Char
  | [] => []
  | c :: cs => if c = 's' then cs else c :: removeFirstS cs

/-- The `endSecs` extraction, including the truthiness guard
(`if (result.resultEndOffset)`: an absent value or the empty string is
falsy and leaves `endSecs = 0`). -/
def endOffsetSecs : Option EndOffset → ℚ
  | none => 0
  | some (EndOffset.str s) =>
    if s = "" then 0 else parseFloatQ (String.mk (removeFirstS s.data))
  | some (EndOffset.obj seconds nanos) =>
    ((seconds.getD 0 : ℤ) : ℚ) + ((nanos.getD 0 : ℤ) : ℚ) / 1000000000

/-- The `for (const result of results)` loop: results without a first
alternative are skipped; each emitted segment starts at the running
`lastEndTime` and advances it to its own end. -/
def buildSegments : List RecResult → ℚ → List SpeechSegment
  | [], _ => []
  | result :: rest, lastEndTime =>
    match result.alternatives.head? with
    | none => buildSegments rest lastEndTime
    | some alternative =>
      let endSecs := endOffsetSecs result.resultEndOffset
      { text := alternative.transcript.getD "",
        start := lastEndTime,
        segEnd := endSecs,
        confidence := alternative.confidence.getD 0 } :: buildSegments rest endSecs

/-- Entry point of the result-processing phase: `lastEndTime` starts at 0. -/
def transcribeSegments (results : List RecResult) : List SpeechSegment :=
  buildSegments results 0

/-! ### Video Identifier Resolver
Source (identical in `transcript-to-markdown.ts` and the transcript route):
`const patterns = [/(?:youtube\.com\/watch\?v=|youtu\.be\/|youtube\.com\/embed\/)([^&\n?#]+)/, /^([a-zA-Z0-9_-]{11})$/];`
`for (const pattern of patterns) { const match = url.match(pattern); if (match) return match[1]; } return null;`
The first regex is unanchored: the engine scans positions left to right and,
at each position, tries the three literal alternatives in order; after a
literal matches, the capture group greedily takes the maximal non-empty run
of characters outside `&`, newline, `?`, `#`. The second regex is a full
anchored match of exactly 11 characters from `[a-zA-Z0-9_-]`. -/

/-- The character class `[^&\n?#]` of the capture group. -/
def allowedCapture (c : Char) : Bool :=
  !(c == '&' || c == '\n' || c == '?' || c == '#')

/-- The character class `[a-zA-Z0-9_-]` of the bare-identifier pattern. -/
def idChar (c : Char) : Bool :=
  ('a' ≤ c && c ≤ 'z') || ('A' ≤ c && c ≤ 'Z') || ('0' ≤ c && c ≤ '9') || c == '_' || c == '-'

def watchPat : List Char := "youtube.com/watch?v=".data

def bePat : List Char := "youtu.be/".data

def embedPat : List Char := "youtube.com/embed/".data

/-- Match a literal character sequence at the head of the input, returning
the remainder on success (the regex engine's literal matching). -/
def matchLit : List Char → List Char → Option (List Char)
  | [], cs => some cs
  | _ :: _, [] => none
  | p :: ps, c :: cs => if p = c then matchLit ps cs else none

/-- One alternative of the first pattern at a fixed position: match the
literal, then capture `[^&\n?#]+` greedily (a non-empty maximal run). -/
def tryAlt (p : List Char) (cs : List Char) : Option (List Char) :=
  match matchLit p cs with
  | none => none
  | some rest =>
    match rest.takeWhile allowedCapture with
    | [] => none
    | r => some r

/-- The alternation `(?:youtube\.com\/watch\?v=|youtu\.be\/|youtube\.com\/embed\/)`
at one position: alternatives tried left to right. -/
def matchAt (cs : List Char) : Option (List Char) :=
  match tryAlt watchPat cs with
  | some r => some r
  | none =>
    match tryAlt bePat cs with
    | some r => some r
    | none => tryAlt embedPat cs

/-- The unanchored scan of the first pattern: positions tried left to
right, first successful position wins (no match is possible at the empty
final position since the literals are non-empty). -/
def scan1 : List Char → Option (List Char)
  | [] => none
  | c :: cs =>
    match matchAt (c :: cs) with
    | some r => some r
    | none => scan1 cs

/-- The caption pipeline's `extractVideoId`: first regex first; failing
that, the anchored bare-identifier pattern (whose capture is the whole
string); otherwise `null`. -/
def extractVideoId (url : String) : Option String :=
  match scan1 url.data with
  | some r => some (String.mk r)
  | none =>
    if url.length == 11 && url.data.all idChar then some url else none

/-! Source: `download-video-simple.ts`, `extractVideoId`:
`if (/^[a-zA-Z0-9_-]{11}$/.test(input)) return input;`
`const patterns = [/(?:youtube\.com\/watch\?v=|youtu\.be\/)([a-zA-Z0-9_-]{11})/, /youtube\.com\/embed\/([a-zA-Z0-9_-]{11})/];`
`for (...) { const match = input.match(pattern); if (match) return match[1]; } throw new Error(...)`
Here the capture is exactly 11 identifier characters; the throw on
exhaustion is modelled as `none`. -/

/-- One position of an 11-character-capture pattern: alternatives (literal
heads) tried in order; each requires the literal followed by exactly 11
characters from `[a-zA-Z0-9_-]`. -/
def matchAtStrict : List (List Char) → List Char → Option (List Char)
  | [], _ => none
  | p :: ps, cs =>
    match matchLit p cs with
    | none => matchAtStrict ps cs
    | some rest =>
      let run := rest.take 11
      if run.length == 11 && run.all idChar then some run else matchAtStrict ps cs

/-- Unanchored scan for an 11-character-capture pattern. -/
def scanStrict (ps : List (List Char)) : List Char → Option (List Char)
  | [] => none
  | c :: cs =>
    match matchAtStrict ps (c :: cs) with
    | some r => some r
    | none => scanStrict ps cs

namespace DownloadSimple

def extractVideoId (input : String) : Option String :=
  if input.length == 11 && input.data.all Pipeline.idChar then some input
  else
    match scanStrict [watchPat, bePat] input.data with
    | some r => some (String.mk r)
    | none =>
      match scanStrict [embedPat] input.data with
      | some r => some (String.mk r)
      | none => none

end DownloadSimple

/-! ### Auxiliary concrete material used in witnesses -/

/-- A run of `n` letters `a`. -/
def aRun (n : ℕ) : String := String.mk (List.replicate n 'a')

/-- The joined transcript text of the fetch loop:
`rawTranscript.map(item => item.text).join(' ')`. -/
def joinTexts (rawTranscript : List TranscriptItem) : String :=
  String.intercalate " " (rawTranscript.map (fun item => item.text))

/-- A caption oracle whose `en` track throws and whose `en-US` track has a
51-character single segment. -/
def fetchEnThrows : Option String → Except String (List TranscriptItem) :=
  fun lang =>
    if lang = some "en" then Except.error "HTTP 404"
    else if lang = some "en-US" then Except.ok [{ text := aRun 51 }]
    else Except.error "later candidate"

/-- A caption oracle whose `en` track is a single segment of exactly 50
characters. -/
def fetchFifty : Option String → Except String (List TranscriptItem) :=
  fun lang =>
    if lang = some "en" then Except.ok [{ text := aRun 50 }]
    else Except.error "other candidate"

/-- Injection of a fully-defined caption triple (text, offset ms,
duration ms) into the raw transcript shape. -/
def mkDefined (x : String × ℚ × ℚ) : Option RawItem :=
  some { text := some x.1, offset := some x.2.1, duration := some x.2.2 }

/-- The normalized segment that a fully-defined triple maps to. -/
def normOf (x : String × ℚ × ℚ) : NormalizedSegment :=
  { text := x.1, timestamp := x.2.1 / 1000, duration := x.2.2 / 1000 }

section Theorems

/-! ## C4: inline vs object-storage routing boundary -/

/-- C4: a local audio file of at most 10 MB (10 × 1024 × 1024 bytes) is
submitted inline and a strictly larger file is routed to object storage;
at the boundary, exactly 10 MB goes inline and 10 MB + 1 byte goes to
object storage. -/
theorem chooseRoute_boundary :
    ∀ sizeBytes : ℕ,
      (chooseRoute sizeBytes = SubmissionRoute.inline ↔ sizeBytes ≤ 10 * 1024 * 1024) ∧
      chooseRoute (10 * 1024 * 1024) = SubmissionRoute.inline ∧
      chooseRoute (10 * 1024 * 1024 + 1) = SubmissionRoute.gcs := by
  have key : ∀ n : ℕ, ((n : ℚ) / (1024 * 1024) > 10 ↔ 10 * 1024 * 1024 < n) := by
    intro n
    rw [gt_iff_lt, lt_div_iff (by norm_num)]
    constructor
    · intro h
      exact_mod_cast h
    · intro h
      exact_mod_cast h
  have base : ∀ n : ℕ, chooseRoute n = SubmissionRoute.inline ↔ n ≤ 10 * 1024 * 1024 := by
    intro n
    by_cases h : (n : ℚ) / (1024 * 1024) > 10
    · have hn := (key n).mp h
      simp only [chooseRoute, if_pos h]
      constructor
      · intro hc
        exact absurd hc (by simp)
      · intro hle
        omega
    · have hn : n ≤ 10 * 1024 * 1024 := by
        by_contra hgt
        exact h ((key n).mpr (by omega))
      simp only [chooseRoute, if_neg h]
      exact ⟨fun _ => hn, fun _ => trivial⟩
  intro sizeBytes
  refine ⟨base sizeBytes, (base _).mpr (le_refl _), ?_⟩
  have h : (((10 * 1024 * 1024 + 1 : ℕ) : ℚ)) / (1024 * 1024) > 10 :=
    (key _).mpr (by omega)
  simp only [chooseRoute, if_pos h]

/-- Closed instance of `chooseRoute_boundary` at the two boundary sizes. -/
theorem chooseRoute_boundary_witness :
    chooseRoute (10 * 1024 * 1024) = SubmissionRoute.inline ∧
      chooseRoute (10 * 1024 * 1024 + 1) = SubmissionRoute.gcs :=
  ⟨(chooseRoute_boundary 0).2.1, (chooseRoute_boundary 0).2.2⟩

/-! ## C6: minimum-length gate on the formatter's completion -/

/-- C6: after a successful generative-text call, a trimmed completion of
length under 100 is rejected with the degenerate-response error (and
nothing is written), while a trimmed completion of length at least 100 is
accepted verbatim. -/
theorem acceptMarkdown_gate :
    ∀ raw : String,
      ((jsTrim raw).length < 100 →
        acceptMarkdown raw = Except.error degenerateResponseMsg) ∧
      (100 ≤ (jsTrim raw).length →
        acceptMarkdown raw = Except.ok (jsTrim raw)) := by
  intro raw
  constructor
  · intro h
    simp only [acceptMarkdown, if_pos h]
  · intro h
    simp only [acceptMarkdown]
    rw [if_neg (by omega)]

/-- Closed instance of `acceptMarkdown_gate`: a 100-character completion
is accepted as is. -/
theorem acceptMarkdown_gate_witness :
    100 ≤ (jsTrim (aRun 100)).length ∧
      acceptMarkdown (aRun 100) = Except.ok (jsTrim (aRun 100)) :=
  ⟨by decide, (acceptMarkdown_gate (aRun 100)).2 (by decide)⟩

/-! ## C7: timestamp rendering -/

/-- Flooring after division by a positive integer divides the floor. -/
theorem floor_div_pos_int (q : ℚ) (d : ℤ) (hd : 0 < d) :
    ⌊q / (d : ℚ)⌋ = ⌊q⌋ / d := by
  have hd' : (0 : ℚ) < (d : ℚ) := by exact_mod_cast hd
  rw [Int.floor_eq_iff]
  constructor
  · rw [le_div_iff hd']
    have h1 : ⌊q⌋ / d * d ≤ ⌊q⌋ := Int.ediv_mul_le ⌊q⌋ (ne_of_gt hd)
    have h1' : ((⌊q⌋ / d * d : ℤ) : ℚ) ≤ (⌊q⌋ : ℚ) := by exact_mod_cast h1
    calc ((⌊q⌋ / d : ℤ) : ℚ) * (d : ℚ) = ((⌊q⌋ / d * d : ℤ) : ℚ) := by push_cast; ring
    _ ≤ (⌊q⌋ : ℚ) := h1'
    _ ≤ q := Int.floor_le q
  · rw [div_lt_iff hd']
    have h2 : ⌊q⌋ < (⌊q⌋ / d + 1) * d := Int.lt_ediv_add_one_mul_self ⌊q⌋ hd
    have h3 : (⌊q⌋ : ℚ) + 1 ≤ (((⌊q⌋ / d + 1) * d : ℤ) : ℚ) := by exact_mod_cast h2
    calc q < (⌊q⌋ : ℚ) + 1 := Int.lt_floor_add_one q
    _ ≤ (((⌊q⌋ / d + 1) * d : ℤ) : ℚ) := h3
    _ = (((⌊q⌋ / d : ℤ) : ℚ) + 1) * (d : ℚ) := by push_cast; ring

/-- On non-negative inputs, the JS remainder `q % d` floors to the
Euclidean remainder of the floors. -/
theorem floor_jsMod (q : ℚ) (d : ℤ) (hq : 0 ≤ q) (hd : 0 < d) :
    ⌊jsMod q (d : ℚ)⌋ = ⌊q⌋ % d := by
  have hd' : (0 : ℚ) < (d : ℚ) := by exact_mod_cast hd
  have hqd : 0 ≤ q / (d : ℚ) := div_nonneg hq (le_of_lt hd')
  have htr : jsTrunc (q / (d : ℚ)) = ⌊q / (d : ℚ)⌋ := by
    simp only [jsTrunc, if_pos hqd]
  have hfd : ⌊q / (d : ℚ)⌋ = ⌊q⌋ / d := floor_div_pos_int q d hd
  have hcast : (d : ℚ) * ((⌊q⌋ / d : ℤ) : ℚ) = ((d * (⌊q⌋ / d) : ℤ) : ℚ) := by push_cast; ring
  calc ⌊jsMod q (d : ℚ)⌋ = ⌊q - ((d * (⌊q⌋ / d) : ℤ) : ℚ)⌋ := by
        rw [jsMod, htr, hfd, hcast]
  _ = ⌊q⌋ - d * (⌊q⌋ / d) := Int.floor_sub_int q _
  _ = ⌊q⌋ % d := by rw [Int.emod_def]

/-- The components of `formatTimestamp` on a non-negative input, in terms
of the floor `n = ⌊q⌋`. -/
theorem formatTimestamp_eq_spec (q : ℚ) (hq : 0 ≤ q) :
    formatTimestamp q = formatTimestampSpec q := by
  have hn : 0 ≤ ⌊q⌋ := Int.floor_nonneg.mpr hq
  have h3600 : ⌊q / 3600⌋ = ⌊q⌋ / 3600 := by
    have := floor_div_pos_int q 3600 (by norm_num)
    push_cast at this
    exact this
  have hm : ⌊jsMod q 3600 / 60⌋ = ⌊q⌋ % 3600 / 60 := by
    have h1 : ⌊jsMod q 3600 / 60⌋ = ⌊jsMod q 3600⌋ / 60 := by
      have := floor_div_pos_int (jsMod q 3600) 60 (by norm_num)
      push_cast at this
      exact this
    have h2 : ⌊jsMod q 3600⌋ = ⌊q⌋ % 3600 := by
      have := floor_jsMod q 3600 hq (by norm_num)
      push_cast at this
      exact this
    rw [h1, h2]
  have hs : ⌊jsMod q 60⌋ = ⌊q⌋ % 60 := by
    have := floor_jsMod q 60 hq (by norm_num)
    push_cast at this
    exact this
  simp only [formatTimestamp, formatTimestampSpec, h3600, hm, hs]
  by_cases hcase : ⌊q⌋ < 3600
  · have h0 : ⌊q⌋ / 3600 = 0 := Int.ediv_eq_zero_of_lt hn hcase
    rw [if_neg (by omega), if_pos hcase, Int.emod_eq_of_lt hn hcase]
  · have h1 : 1 ≤ ⌊q⌋ / 3600 := by
      rw [Int.le_ediv_iff_mul_le (by norm_num)]
      omega
    rw [if_pos (by omega), if_neg hcase]

/-- C7: for every non-negative seconds value the formatter renders `M:SS`
under one hour and `H:MM:SS` otherwise, zero-padding minutes and seconds
to two digits but never the leading unit; 45 s renders as "0:45", 125 s
as "2:05" and 3725 s as "1:02:05". -/
theorem formatTimestamp_rendering :
    ∀ q : ℚ, 0 ≤ q →
      formatTimestamp q = formatTimestampSpec q ∧
      formatTimestamp 45 = "0:45" ∧
      formatTimestamp 125 = "2:05" ∧
      formatTimestamp 3725 = "1:02:05" := by
  have conc : ∀ k : ℕ, formatTimestamp (k : ℚ) = formatTimestampSpec (k : ℚ) := by
    intro k
    exact formatTimestamp_eq_spec _ (by positivity)
  have e45 : formatTimestamp 45 = "0:45" := by
    have h := conc 45
    norm_num at h
    rw [h]
    simp only [formatTimestampSpec]
    rw [show ⌊(45 : ℚ)⌋ = 45 by norm_num]
    decide
  have e125 : formatTimestamp 125 = "2:05" := by
    have h := conc 125
    norm_num at h
    rw [h]
    simp only [formatTimestampSpec]
    rw [show ⌊(125 : ℚ)⌋ = 125 by norm_num]
    decide
  have e3725 : formatTimestamp 3725 = "1:02:05" := by
    have h := conc 3725
    norm_num at h
    rw [h]
    simp only [formatTimestampSpec]
    rw [show ⌊(3725 : ℚ)⌋ = 3725 by norm_num]
    decide
  intro q hq
  exact ⟨formatTimestamp_eq_spec q hq, e45, e125, e3725⟩

/-- Closed instance of `formatTimestamp_rendering` at 3725 seconds. -/
theorem formatTimestamp_rendering_witness :
    (0 : ℚ) ≤ 3725 ∧ formatTimestamp 3725 = "1:02:05" :=
  ⟨by norm_num, (formatTimestamp_rendering 3725 (by norm_num)).2.2.2⟩

/-! ## C3: normalization of fully-defined caption segments -/

/-- On a list of fully-defined items the map succeeds and divides offsets
and durations by 1000. -/
theorem mapSegments_defined (l : List (String × ℚ × ℚ)) :
    ∀ i : ℕ, mapSegments i (l.map mkDefined) = Except.ok (l.map normOf) := by
  induction l with
  | nil => intro i; rfl
  | cons x xs ih =>
    intro i
    simp only [List.map_cons, mapSegments, mkDefined, ih (i + 1), Except.map, normOf,
      Option.getD_some]

/-- C3: for a non-empty caption list whose elements all have offset and
duration defined, the Normalizer emits one segment per input with
`timestamp = offset/1000` and `duration = duration/1000`, and the total
duration is the final segment's timestamp plus its duration; on
`[{text:"a",offset:0,duration:1000}, {text:"b",offset:1000,duration:1000}]`
the total is 2. -/
theorem normalizeTranscript_defined :
    ∀ (l : List (String × ℚ × ℚ)) (t : String) (o d : ℚ),
      l.getLast? = some (t, o, d) →
      normalizeTranscript (l.map mkDefined) =
        Except.ok (l.map normOf, o / 1000 + d / 1000) ∧
      normalizeTranscript [mkDefined ("a", 0, 1000), mkDefined ("b", 1000, 1000)] =
        Except.ok ([{ text := "a", timestamp := 0, duration := 1 },
                    { text := "b", timestamp := 1, duration := 1 }], 2) := by
  have conc : normalizeTranscript [mkDefined ("a", 0, 1000), mkDefined ("b", 1000, 1000)] =
      Except.ok ([{ text := "a", timestamp := 0, duration := 1 },
                  { text := "b", timestamp := 1, duration := 1 }], 2) := by
    simp only [normalizeTranscript, mapSegments, mkDefined, Except.map, List.getLast?]
    norm_num
  intro l t o d hlast
  refine ⟨?_, conc⟩
  have hne : l ≠ [] := by
    intro h
    rw [h] at hlast
    exact Option.noConfusion hlast
  have hlen : (l.map mkDefined).length ≠ 0 := by
    simp [List.length_eq_zero, hne]
  have hmap := mapSegments_defined l 0
  have hlast' : (l.map normOf).getLast? = some (normOf (t, o, d)) := by
    rw [List.getLast?_map, hlast]
    rfl
  simp only [normalizeTranscript, if_neg hlen, hmap, hlast', normOf]

/-- Closed instance of `normalizeTranscript_defined` on the two-segment
example list. -/
theorem normalizeTranscript_defined_witness :
    ([("a", (0 : ℚ), (1000 : ℚ)), ("b", 1000, 1000)].getLast? = some ("b", 1000, 1000)) ∧
      normalizeTranscript ([("a", (0 : ℚ), (1000 : ℚ)), ("b", 1000, 1000)].map mkDefined) =
        Except.ok ([("a", (0 : ℚ), (1000 : ℚ)), ("b", 1000, 1000)].map normOf,
          (1000 : ℚ) / 1000 + 1000 / 1000) :=
  ⟨rfl, (normalizeTranscript_defined [("a", 0, 1000), ("b", 1000, 1000)] "b" 1000 1000 rfl).1⟩

/-! ## C10: tolerance for missing text, abort on missing offset/duration -/

/-- The map succeeds on any list whose elements all have offset and
duration defined, whatever their text fields. -/
theorem mapSegments_ok_of_timed (l : List (Option String × ℚ × ℚ)) :
    ∀ i : ℕ,
      mapSegments i (l.map (fun x => some { text := x.1, offset := some x.2.1, duration := some x.2.2 })) =
        Except.ok (l.map (fun x =>
          { text := x.1.getD "", timestamp := x.2.1 / 1000, duration := x.2.2 / 1000 })) := by
  induction l with
  | nil => intro i; rfl
  | cons x xs ih =>
    intro i
    simp only [List.map_cons, mapSegments, ih (i + 1), Except.map]

/-- C10: a segment with offset and duration defined never raises,
whatever its text (missing or empty text becomes `""`); a segment that is
absent or lacks offset or duration aborts with the error naming its
index, and a whole list of timed segments maps without error. -/
theorem mapSegments_text_tolerance :
    ∀ (index : ℕ) (txt : Option String) (o d : ℚ) (rest : List (Option RawItem)),
      (mapSegments index (some { text := txt, offset := some o, duration := some d } :: rest) =
        (mapSegments (index + 1) rest).map
          (fun tl => { text := txt.getD "", timestamp := o / 1000, duration := d / 1000 } :: tl)) ∧
      (mapSegments index (some { text := none, offset := some o, duration := some d } :: rest) =
        (mapSegments (index + 1) rest).map
          (fun tl => { text := "", timestamp := o / 1000, duration := d / 1000 } :: tl)) ∧
      (∀ l : List (Option String × ℚ × ℚ),
        mapSegments index (l.map (fun x => some { text := x.1, offset := some x.2.1, duration := some x.2.2 })) =
          Except.ok (l.map (fun x =>
            { text := x.1.getD "", timestamp := x.2.1 / 1000, duration := x.2.2 / 1000 }))) ∧
      (∀ it : Option RawItem,
        (it = none ∨ ∃ x, it = some x ∧ (x.offset = none ∨ x.duration = none)) →
          mapSegments index (it :: rest) = Except.error (NormError.invalidSegment index)) := by
  intro index txt o d rest
  refine ⟨rfl, rfl, fun l => mapSegments_ok_of_timed l index, ?_⟩
  rintro it (rfl | ⟨x, rfl, hx⟩)
  · rfl
  · rcases x with ⟨xt, xo, xd⟩
    rcases hx with h | h
    · cases h
      rfl
    · cases h
      cases xo with
      | none => rfl
      | some _ => rfl

/-- Closed instance of `mapSegments_text_tolerance`: a single absent item
aborts with index 0. -/
theorem mapSegments_text_tolerance_witness :
    mapSegments 0 [(none : Option RawItem)] = Except.error (NormError.invalidSegment 0) :=
  (mapSegments_text_tolerance 0 none 0 0 []).2.2.2 none (Or.inl rfl)

/-! ## C2: contiguous speech-segment timeline -/

/-- The first segment emitted by `buildSegments` starts at the running
`lastEndTime` that was passed in. -/
theorem buildSegments_head_start :
    ∀ (results : List RecResult) (lastEndTime : ℚ) (s0 : SpeechSegment),
      (buildSegments results lastEndTime).head? = some s0 → s0.start = lastEndTime := by
  intro results
  induction results with
  | nil => intro lastEndTime s0 h; exact Option.noConfusion h
  | cons r rs ih =>
    intro lastEndTime s0 h
    rcases halt : r.alternatives.head? with _ | alt
    · rw [buildSegments, halt] at h
      exact ih lastEndTime s0 h
    · rw [buildSegments, halt] at h
      cases h
      rfl

/-- Every later segment starts exactly where its predecessor ended. -/
theorem buildSegments_chain :
    ∀ (results : List RecResult) (lastEndTime : ℚ),
      List.Chain' (fun a b => b.start = a.segEnd) (buildSegments results lastEndTime) := by
  intro results
  induction results with
  | nil => intro lastEndTime; exact List.chain'_nil
  | cons r rs ih =>
    intro lastEndTime
    rcases halt : r.alternatives.head? with _ | alt
    · rw [buildSegments, halt]
      exact ih lastEndTime
    · rw [buildSegments, halt]
      rw [List.chain'_cons']
      refine ⟨?_, ih _⟩
      intro b hb
      exact buildSegments_head_start rs _ b hb

/-- C2: the Batch Transcription Client's segments partition the timeline
contiguously — the first start is 0 and each later start equals the
previous end, regardless of recognizer gaps — with end times parsed from
`"…s"` strings or seconds/nanos pairs; on end-offsets `"3.500s"`, `"7.0s"`
the segments are `{start 0, end 3.5}`, `{start 3.5, end 7}`. -/
theorem transcribeSegments_contiguous :
    ∀ results : List RecResult,
      List.Chain' (fun a b => b.start = a.segEnd) (transcribeSegments results) ∧
      (∀ s0 : SpeechSegment, (transcribeSegments results).head? = some s0 → s0.start = 0) ∧
      endOffsetSecs (some (EndOffset.obj (some 3) (some 500000000))) = 7 / 2 ∧
      transcribeSegments
        [{ alternatives := [{ transcript := some "x", confidence := some (9 / 10) }],
           resultEndOffset := some (EndOffset.str "3.500s") },
         { alternatives := [{ transcript := some "y", confidence := some (4 / 5) }],
           resultEndOffset := some (EndOffset.str "7.0s") }] =
        [{ text := "x", start := 0, segEnd := 7 / 2, confidence := 9 / 10 },
         { text := "y", start := 7 / 2, segEnd := 7, confidence := 4 / 5 }] := by
  have hp1 : parseFloatQ "3.500" = 7 / 2 := by
    have h : parseFloatQ "3.500" = ((digitsToNat? "3".data).getD 0 : ℚ) +
        ((digitsToNat? "500".data).getD 0 : ℚ) / (10 : ℚ) ^ ("500".data).length := rfl
    rw [h, show digitsToNat? "3".data = some 3 by decide,
       show digitsToNat? "500".data = some 500 by decide,
       show ("500".data).length = 3 from rfl]
    simp only [Option.getD_some]
    norm_num
  have hp2 : parseFloatQ "7.0" = 7 := by
    have h : parseFloatQ "7.0" = ((digitsToNat? "7".data).getD 0 : ℚ) +
        ((digitsToNat? "0".data).getD 0 : ℚ) / (10 : ℚ) ^ ("0".data).length := rfl
    rw [h, show digitsToNat? "7".data = some 7 by decide,
       show digitsToNat? "0".data = some 0 by decide,
       show ("0".data).length = 1 from rfl]
    simp only [Option.getD_some]
    norm_num
  have h1 : endOffsetSecs (some (EndOffset.str "3.500s")) = 7 / 2 := by
    simp only [endOffsetSecs]
    rw [if_neg (by decide)]
    rw [show String.mk (removeFirstS "3.500s".data) = "3.500" from rfl]
    rw [hp1]
  have h2 : endOffsetSecs (some (EndOffset.str "7.0s")) = 7 := by
    simp only [endOffsetSecs]
    rw [if_neg (by decide)]
    rw [show String.mk (removeFirstS "7.0s".data) = "7.0" from rfl]
    rw [hp2]
  have hobj : endOffsetSecs (some (EndOffset.obj (some 3) (some 500000000))) = 7 / 2 := by
    simp only [endOffsetSecs, Option.getD_some]
    norm_num
  intro results
  refine ⟨buildSegments_chain results 0, ?_, hobj, ?_⟩
  · intro s0 h
    exact buildSegments_head_start results 0 s0 h
  · simp only [transcribeSegments, buildSegments, List.head?, h1, h2, Option.getD_some]

/-- Closed instance of `transcribeSegments_contiguous`: the head of the
two-result example starts at 0. -/
theorem transcribeSegments_contiguous_witness :
    (transcribeSegments
        [{ alternatives := [{ transcript := some "x", confidence := some (9 / 10) }],
           resultEndOffset := some (EndOffset.str "3.500s") },
         { alternatives := [{ transcript := some "y", confidence := some (4 / 5) }],
           resultEndOffset := some (EndOffset.str "7.0s") }]).head? =
      some { text := "x", start := 0, segEnd := 7 / 2, confidence := 9 / 10 } ∧
    ({ text := "x", start := 0, segEnd := 7 / 2, confidence := 9 / 10 } : SpeechSegment).start = 0 := by
  have hmain := (transcribeSegments_contiguous
    [{ alternatives := [{ transcript := some "x", confidence := some (9 / 10) }],
       resultEndOffset := some (EndOffset.str "3.500s") },
     { alternatives := [{ transcript := some "y", confidence := some (4 / 5) }],
       resultEndOffset := some (EndOffset.str "7.0s") }])
  have hhead := hmain.2.2.2
  refine ⟨by rw [hhead]; rfl, ?_⟩
  exact hmain.2.1 _ (by rw [hhead]; rfl)

/-! ## C1: language fallback order and early stop -/

/-- Bind on a successful `Except` value. -/
theorem except_bind_ok {ε α β : Type} (a : α) (f : α → Except ε β) :
    (Except.ok a >>= f : Except ε β) = f a := rfl

/-- Bind on a failed `Except` value. -/
theorem except_bind_error {ε α β : Type} (e : ε) (f : α → Except ε β) :
    (Except.error e >>= f : Except ε β) = Except.error e := rfl

/-- The instrumented loop computes the same result as the plain loop. -/
theorem fetchLoopTrace_fst :
    ∀ (fetch : Option String → Except String (List TranscriptItem))
      (cands : List (Option String)) (lastError : Option String),
      (fetchLoopTrace fetch cands lastError).1 = fetchLoop fetch cands lastError := by
  intro fetch cands
  induction cands with
  | nil => intro lastError; rfl
  | cons lang rest ih =>
    intro lastError
    simp only [fetchLoopTrace, fetchLoop]
    rcases h : attemptCandidate fetch lang with e | t
    · simpa using ih (some e)
    · rfl

/-- C1: if the `en` candidate throws and `en-US` yields a non-empty
segment list whose joined (trimmed) text reaches the 50-character
requirement, the fetcher returns the `en-US` text, and the trace shows
that only `en` and `en-US` were attempted — never `en-GB` or the service
default. -/
theorem fetchTranscriptText_en_fallback :
    ∀ (fetch : Option String → Except String (List TranscriptItem)) (e : String)
      (segs : List TranscriptItem),
      fetch (some "en") = Except.error e →
      fetch (some "en-US") = Except.ok segs →
      segs ≠ [] →
      50 ≤ (jsTrim (joinTexts segs)).length →
      fetchTranscriptText fetch = Except.ok (joinTexts segs) ∧
      (fetchLoopTrace fetch languageCodes none).2 = [some "en", some "en-US"] := by
  intro fetch e segs h1 h2 hne hlen
  have ha1 : attemptCandidate fetch (some "en") = Except.error e := by
    simp only [attemptCandidate, h1, except_bind_error]
  have hlen0 : ¬ segs.length = 0 := by
    simpa [List.length_eq_zero] using hne
  have ha2 : attemptCandidate fetch (some "en-US") = Except.ok (joinTexts segs) := by
    simp only [joinTexts] at hlen
    simp only [attemptCandidate, h2, except_bind_ok, joinTexts]
    rw [if_neg hlen0, if_neg (by omega : ¬ (jsTrim (String.intercalate " "
      (segs.map (fun item => item.text)))).length < 50)]
  constructor
  · simp only [fetchTranscriptText, languageCodes, fetchLoop, ha1, ha2]
  · simp only [languageCodes, fetchLoopTrace, ha1, ha2]

/-- Closed instance of `fetchTranscriptText_en_fallback` on the oracle
`fetchEnThrows`. -/
theorem fetchTranscriptText_en_fallback_witness :
    fetchTranscriptText fetchEnThrows = Except.ok (joinTexts [{ text := aRun 51 }]) ∧
      (fetchLoopTrace fetchEnThrows languageCodes none).2 = [some "en", some "en-US"] :=
  fetchTranscriptText_en_fallback fetchEnThrows "HTTP 404" [{ text := aRun 51 }]
    rfl rfl (by decide) (by decide)

/-! ## C5: the 50-character acceptance threshold -/

/-- C5 counterexample: a candidate whose joined text has exactly 50
characters is accepted (the code only rejects trimmed length < 50), so
the loop stops at `en` instead of rejecting it and trying `en-US`. -/
theorem fetchFifty_accepted :
    fetchTranscriptText fetchFifty = Except.ok (aRun 50) ∧
      (jsTrim (aRun 50)).length = 50 ∧
      (fetchLoopTrace fetchFifty languageCodes none).2 = [some "en"] := by
  have ha : attemptCandidate fetchFifty (some "en") = Except.ok (aRun 50) := by
    have hfetch : fetchFifty (some "en") = Except.ok [{ text := aRun 50 }] := rfl
    simp only [attemptCandidate, hfetch, except_bind_ok]
    rw [if_neg (by decide : ¬ ([{ text := aRun 50 }] : List TranscriptItem).length = 0)]
    rw [show String.intercalate " " (([{ text := aRun 50 }] : List TranscriptItem).map
      (fun item => item.text)) = aRun 50 by decide]
    rw [if_neg (by decide : ¬ (jsTrim (aRun 50)).length < 50)]
  refine ⟨?_, by decide, ?_⟩
  · simp only [fetchTranscriptText, languageCodes, fetchLoop, ha]
  · simp only [languageCodes, fetchLoopTrace, ha]

/-- C5 amended: a candidate is accepted exactly when it yields a
non-empty segment list whose joined text, after trimming, has length at
least 50 (so exactly 50 is accepted); a rejected candidate's error is
recorded and the loop moves to the next candidate. -/
theorem attemptCandidate_accepts_iff :
    ∀ (fetch : Option String → Except String (List TranscriptItem)) (lang : Option String)
      (segs : List TranscriptItem),
      fetch lang = Except.ok segs →
      (attemptCandidate fetch lang = Except.ok (joinTexts segs) ↔
        segs ≠ [] ∧ 50 ≤ (jsTrim (joinTexts segs)).length) ∧
      (∀ (rest : List (Option String)) (lastError : Option String) (e : String),
        attemptCandidate fetch lang = Except.error e →
        fetchLoop fetch (lang :: rest) lastError = fetchLoop fetch rest (some e)) := by
  intro fetch lang segs hok
  constructor
  · constructor
    · intro hacc
      by_cases h0 : segs.length = 0
      · have herr : attemptCandidate fetch lang = Except.error emptyTranscriptMsg := by
          simp only [attemptCandidate, hok, except_bind_ok, if_pos h0]
        rw [herr] at hacc
        exact Except.noConfusion hacc
      · by_cases hl : (jsTrim (joinTexts segs)).length < 50
        · have herr : attemptCandidate fetch lang = Except.error tooShortMsg := by
            simp only [attemptCandidate, hok, except_bind_ok, joinTexts] at hl ⊢
            rw [if_neg h0, if_pos hl]
          rw [herr] at hacc
          exact Except.noConfusion hacc
        · refine ⟨?_, by omega⟩
          intro hnil
          exact h0 (by rw [hnil]; rfl)
    · rintro ⟨hne, hlen⟩
      have h0 : ¬ segs.length = 0 := by
        simpa [List.length_eq_zero] using hne
      simp only [attemptCandidate, hok, except_bind_ok, joinTexts]
      rw [if_neg h0, if_neg (by
        simp only [joinTexts] at hlen
        omega : ¬ (jsTrim (String.intercalate " "
          (segs.map (fun item => item.text)))).length < 50)]
  · intro rest lastError e herr
    simp only [fetchLoop, herr]

/-- Closed instance of `attemptCandidate_accepts_iff` on `fetchFifty`. -/
theorem attemptCandidate_accepts_iff_witness :
    attemptCandidate fetchFifty (some "en") = Except.ok (joinTexts [{ text := aRun 50 }]) := by
  have h := (attemptCandidate_accepts_iff fetchFifty (some "en") [{ text := aRun 50 }] rfl).1
  exact h.mpr ⟨by decide, by decide⟩

/-! ## Support lemmas for the Video Identifier Resolver -/

/-- A literal always matches itself at the head, leaving the tail. -/
theorem matchLit_self_append : ∀ (p x : List Char), matchLit p (p ++ x) = some x := by
  intro p
  induction p with
  | nil => intro x; rfl
  | cons c cs ih => intro x; simp [matchLit, ih x]

/-- A successful literal match decomposes the input. -/
theorem matchLit_eq_some : ∀ (p l r : List Char), matchLit p l = some r → l = p ++ r := by
  intro p
  induction p with
  | nil =>
    intro l r h
    cases h
    rfl
  | cons c cs ih =>
    intro l r h
    cases l with
    | nil => exact Option.noConfusion h
    | cons b bs =>
      by_cases hb : c = b
      · rw [matchLit, if_pos hb] at h
        rw [List.cons_append, ← hb, ih bs r h]
      · rw [matchLit, if_neg hb] at h
        exact Option.noConfusion h

/-- A literal containing `'.'` cannot match inside a run of identifier
characters. -/
theorem matchLit_none_of_idChar (p l : List Char) (hdot : '.' ∈ p)
    (h : ∀ c ∈ l, idChar c = true) : matchLit p l = none := by
  rcases hm : matchLit p l with _ | r
  · rfl
  · exfalso
    have hl : l = p ++ r := matchLit_eq_some p l r hm
    have : idChar '.' = true := h '.' (by rw [hl]; exact List.mem_append_left r hdot)
    exact absurd this (by decide)

/-- First-character mismatch kills a literal match. -/
theorem matchLit_cons_ne (p0 : Char) (ps : List Char) (c : Char) (cs : List Char)
    (h : p0 ≠ c) : matchLit (p0 :: ps) (c :: cs) = none := by
  rw [matchLit, if_neg h]

/-- Identifier characters are never capture terminators. -/
theorem idChar_allowed (c : Char) (h : idChar c = true) : allowedCapture c = true := by
  have h1 : (c == '&') = false := by
    rcases hb : c == '&' with _ | _
    · rfl
    · exact absurd h (by rw [eq_of_beq hb]; decide)
  have h2 : (c == '\n') = false := by
    rcases hb : c == '\n' with _ | _
    · rfl
    · exact absurd h (by rw [eq_of_beq hb]; decide)
  have h3 : (c == '?') = false := by
    rcases hb : c == '?' with _ | _
    · rfl
    · exact absurd h (by rw [eq_of_beq hb]; decide)
  have h4 : (c == '#') = false := by
    rcases hb : c == '#' with _ | _
    · rfl
    · exact absurd h (by rw [eq_of_beq hb]; decide)
  simp only [allowedCapture, h1, h2, h3, h4, Bool.or_self, Bool.or_false, Bool.not_false]

/-- The greedy capture takes a whole run of identifier characters. -/
theorem takeWhile_allowed_of_idChar (l : List Char) (h : ∀ c ∈ l, idChar c = true) :
    l.takeWhile allowedCapture = l :=
  List.takeWhile_eq_self_iff.mpr (fun c hc => idChar_allowed c (h c hc))

/-- An alternative succeeds on its own literal followed by a non-empty
identifier run, capturing exactly that run. -/
theorem tryAlt_self (p x : List Char) (hx : x ≠ [])
    (hall : ∀ c ∈ x, idChar c = true) : tryAlt p (p ++ x) = some x := by
  rw [tryAlt]
  rw [matchLit_self_append]
  show (match x.takeWhile allowedCapture with | [] => none | r => some r) = some x
  rw [takeWhile_allowed_of_idChar x hall]
  cases x with
  | nil => exact absurd rfl hx
  | cons c cs => rfl

/-- No position inside a pure identifier run matches any alternative. -/
theorem matchAt_none_of_idChar (l : List Char) (h : ∀ c ∈ l, idChar c = true) :
    matchAt l = none := by
  have hw : matchLit watchPat l = none :=
    matchLit_none_of_idChar watchPat l (by decide) h
  have hb : matchLit bePat l = none :=
    matchLit_none_of_idChar bePat l (by decide) h
  have he : matchLit embedPat l = none :=
    matchLit_none_of_idChar embedPat l (by decide) h
  rw [matchAt, tryAlt, hw, tryAlt, hb, tryAlt, he]

/-- The unanchored scan finds nothing in a pure identifier run. -/
theorem scan1_none_of_idChar : ∀ l : List Char, (∀ c ∈ l, idChar c = true) →
    scan1 l = none := by
  intro l
  induction l with
  | nil => intro h; rfl
  | cons c cs ih =>
    intro h
    rw [scan1, matchAt_none_of_idChar (c :: cs) h]
    exact ih (fun b hb => h b (List.mem_cons_of_mem c hb))

/-- At a position whose head is not `'y'` no alternative can start. -/
theorem matchAt_cons_ne_y (c : Char) (cs : List Char) (h : c ≠ 'y') :
    matchAt (c :: cs) = none := by
  have hw : matchLit watchPat (c :: cs) = none := by
    rw [show watchPat = 'y' :: "outube.com/watch?v=".data from rfl]
    exact matchLit_cons_ne _ _ _ _ (Ne.symm h)
  have hb : matchLit bePat (c :: cs) = none := by
    rw [show bePat = 'y' :: "outu.be/".data from rfl]
    exact matchLit_cons_ne _ _ _ _ (Ne.symm h)
  have he : matchLit embedPat (c :: cs) = none := by
    rw [show embedPat = 'y' :: "outube.com/embed/".data from rfl]
    exact matchLit_cons_ne _ _ _ _ (Ne.symm h)
  rw [matchAt, tryAlt, hw, tryAlt, hb, tryAlt, he]

/-- Scanning skips over any leading characters that are not `'y'`. -/
theorem scan1_append_ne_y : ∀ (pre x : List Char), (∀ c ∈ pre, c ≠ 'y') →
    scan1 (pre ++ x) = scan1 x := by
  intro pre
  induction pre with
  | nil => intro x _; rfl
  | cons c cs ih =>
    intro x h
    rw [List.cons_append, scan1,
      matchAt_cons_ne_y c (cs ++ x) (h c (List.mem_cons_self c cs))]
    exact ih x (fun b hb => h b (List.mem_cons_of_mem c hb))

/-- A successful position makes the whole scan succeed. -/
theorem scan1_pos : ∀ (l r : List Char), matchAt l = some r → scan1 l = some r := by
  intro l r h
  cases l with
  | nil =>
    rw [show matchAt [] = none from rfl] at h
    exact Option.noConfusion h
  | cons c cs => rw [scan1, h]

/-- Alternatives whose literals all contain `'.'` find nothing at a
position inside a pure identifier run. -/
theorem matchAtStrict_none_of_idChar :
    ∀ (ps : List (List Char)), (∀ p ∈ ps, '.' ∈ p) →
      ∀ l : List Char, (∀ c ∈ l, idChar c = true) → matchAtStrict ps l = none := by
  intro ps
  induction ps with
  | nil => intro _ l _; rfl
  | cons p pt ih =>
    intro hdot l h
    have hm : matchLit p l = none :=
      matchLit_none_of_idChar p l (hdot p (List.mem_cons_self p pt)) h
    rw [matchAtStrict, hm]
    exact ih (fun q hq => hdot q (List.mem_cons_of_mem p hq)) l h

/-- The strict scan finds nothing in a pure identifier run. -/
theorem scanStrict_none_of_idChar (ps : List (List Char)) (hdot : ∀ p ∈ ps, '.' ∈ p) :
    ∀ l : List Char, (∀ c ∈ l, idChar c = true) → scanStrict ps l = none := by
  intro l
  induction l with
  | nil => intro _; rfl
  | cons c cs ih =>
    intro h
    rw [scanStrict, matchAtStrict_none_of_idChar ps hdot (c :: cs) h]
    exact ih (fun b hb => h b (List.mem_cons_of_mem c hb))

/-- Alternatives that all begin with `'y'` find nothing at a position
whose head is not `'y'`. -/
theorem matchAtStrict_cons_ne_y :
    ∀ (ps : List (List Char)), (∀ p ∈ ps, p.head? = some 'y') →
      ∀ (c : Char) (cs : List Char), c ≠ 'y' → matchAtStrict ps (c :: cs) = none := by
  intro ps
  induction ps with
  | nil => intro _ c cs _; rfl
  | cons p pt ih =>
    intro hy c cs hc
    have hp := hy p (List.mem_cons_self p pt)
    cases p with
    | nil => exact Option.noConfusion hp
    | cons p0 ptl =>
      have hp0 : p0 = 'y' := by
        cases hp
        rfl
      have hm : matchLit (p0 :: ptl) (c :: cs) = none :=
        matchLit_cons_ne p0 ptl c cs (by rw [hp0]; exact Ne.symm hc)
      rw [matchAtStrict, hm]
      exact ih (fun q hq => hy q (List.mem_cons_of_mem _ hq)) c cs hc

/-- The strict scan skips over any leading characters that are not `'y'`. -/
theorem scanStrict_append_ne_y (ps : List (List Char)) (hy : ∀ p ∈ ps, p.head? = some 'y') :
    ∀ (pre x : List Char), (∀ c ∈ pre, c ≠ 'y') →
      scanStrict ps (pre ++ x) = scanStrict ps x := by
  intro pre
  induction pre with
  | nil => intro x _; rfl
  | cons c cs ih =>
    intro x h
    rw [List.cons_append, scanStrict,
      matchAtStrict_cons_ne_y ps hy c (cs ++ x) (h c (List.mem_cons_self c cs))]
    exact ih x (fun b hb => h b (List.mem_cons_of_mem c hb))

/-- A failed position advances the strict scan by one character. -/
theorem scanStrict_step (ps : List (List Char)) (l : List Char) (hl : l ≠ [])
    (h : matchAtStrict ps l = none) : scanStrict ps l = scanStrict ps l.tail := by
  cases l with
  | nil => exact absurd rfl hl
  | cons c cs => rw [scanStrict, h]; rfl

/-- A successful position makes the whole strict scan succeed. -/
theorem scanStrict_pos (ps : List (List Char)) (l r : List Char) (hl : l ≠ [])
    (h : matchAtStrict ps l = some r) : scanStrict ps l = some r := by
  cases l with
  | nil => exact absurd rfl hl
  | cons c cs => rw [scanStrict, h]

/-- The head alternative of a strict pattern captures an 11-character
identifier run following its literal. -/
theorem matchAtStrict_head (p : List Char) (ps : List (List Char)) (x : List Char)
    (hlen : x.length = 11) (hall : ∀ c ∈ x, idChar c = true) :
    matchAtStrict (p :: ps) (p ++ x) = some x := by
  rw [matchAtStrict, matchLit_self_append]
  show (let run := x.take 11
    if run.length == 11 && run.all idChar then some run
    else matchAtStrict ps (p ++ x)) = some x
  have htake : x.take 11 = x := by
    rw [← hlen]
    exact List.take_length x
  have hcond : ((x.take 11).length == 11 && (x.take 11).all idChar) = true := by
    rw [htake, hlen, List.all_eq_true.mpr hall, Bool.and_true]
    rfl
  simp only [htake] at hcond ⊢
  rw [if_pos hcond]

/-- The alternation at the `watch?v=` position. -/
theorem matchAt_watch (x : List Char) (hx : x ≠ []) (hall : ∀ c ∈ x, idChar c = true) :
    matchAt (watchPat ++ x) = some x := by
  rw [matchAt, tryAlt_self watchPat x hx hall]

/-- The alternation at the `youtu.be/` position. -/
theorem matchAt_be (x : List Char) (hx : x ≠ []) (hall : ∀ c ∈ x, idChar c = true) :
    matchAt (bePat ++ x) = some x := by
  have hw : tryAlt watchPat (bePat ++ x) = none := by
    rw [tryAlt, show matchLit watchPat (bePat ++ x) = none from by rfl]
  rw [matchAt, hw, tryAlt_self bePat x hx hall]

/-- The alternation at the `embed/` position. -/
theorem matchAt_embed (x : List Char) (hx : x ≠ []) (hall : ∀ c ∈ x, idChar c = true) :
    matchAt (embedPat ++ x) = some x := by
  have hw : tryAlt watchPat (embedPat ++ x) = none := by
    rw [tryAlt, show matchLit watchPat (embedPat ++ x) = none from by rfl]
  have hb : tryAlt bePat (embedPat ++ x) = none := by
    rw [tryAlt, show matchLit bePat (embedPat ++ x) = none from by rfl]
  rw [matchAt, hw, hb, tryAlt_self embedPat x hx hall]

/-- A successful scan determines the caption-pipeline resolver's answer. -/
theorem extractVideoId_of_scan (l : List Char) (s : String) (h : scan1 l = some s.data) :
    extractVideoId (String.mk l) = some s := by
  simp only [extractVideoId, h]

/-- The caption-pipeline resolver on a bare 11-character identifier. -/
theorem extractVideoId_bare (s : String) (hlen : s.length = 11)
    (hall : ∀ c ∈ s.data, idChar c = true) : extractVideoId s = some s := by
  simp only [extractVideoId]
  rw [scan1_none_of_idChar s.data hall]
  rw [if_pos (by rw [hlen, List.all_eq_true.mpr hall, Bool.and_true]; rfl)]

/-- The download-script resolver when the bare pattern fails and the
first URL pattern succeeds. -/
theorem downloadSimple_of_scan1 (l : List Char) (s : String) (hbare : l.length ≠ 11)
    (h1 : scanStrict [watchPat, bePat] l = some s.data) :
    DownloadSimple.extractVideoId (String.mk l) = some s := by
  simp only [DownloadSimple.extractVideoId]
  rw [show (String.mk l).length = l.length from rfl]
  rw [if_neg (fun hcond => hbare (eq_of_beq ((Bool.and_eq_true _ _).mp hcond).1))]
  simp only [h1]

/-- The download-script resolver when only the `embed/` pattern succeeds. -/
theorem downloadSimple_of_scan2 (l : List Char) (s : String) (hbare : l.length ≠ 11)
    (h1 : scanStrict [watchPat, bePat] l = none)
    (h2 : scanStrict [embedPat] l = some s.data) :
    DownloadSimple.extractVideoId (String.mk l) = some s := by
  simp only [DownloadSimple.extractVideoId]
  rw [show (String.mk l).length = l.length from rfl]
  rw [if_neg (fun hcond => hbare (eq_of_beq ((Bool.and_eq_true _ _).mp hcond).1))]
  simp only [h1, h2]

/-- The download-script resolver on a bare 11-character identifier. -/
theorem downloadSimple_bare (s : String) (hlen : s.length = 11)
    (hall : ∀ c ∈ s.data, idChar c = true) :
    DownloadSimple.extractVideoId s = some s := by
  simp only [DownloadSimple.extractVideoId]
  rw [if_pos (by rw [hlen, List.all_eq_true.mpr hall, Bool.and_true]; rfl)]

/-! ## C8: the four input forms resolve to the same identifier -/

/-- C8: for every 11-character identifier and every URL head without a
`'y'` (such as `https://www.` or `https://`), the `watch?v=`, `youtu.be/`
and `embed/` URL forms and the bare identifier all resolve to the same
identifier, in both resolver implementations. -/
theorem resolver_four_forms :
    ∀ (id : String) (pre : List Char),
      id.length = 11 →
      (∀ c ∈ id.data, idChar c = true) →
      (∀ c ∈ pre, c ≠ 'y') →
      (extractVideoId (String.mk (pre ++ watchPat ++ id.data)) = some id ∧
        extractVideoId (String.mk (pre ++ bePat ++ id.data)) = some id ∧
        extractVideoId (String.mk (pre ++ embedPat ++ id.data)) = some id ∧
        extractVideoId id = some id) ∧
      (DownloadSimple.extractVideoId (String.mk (pre ++ watchPat ++ id.data)) = some id ∧
        DownloadSimple.extractVideoId (String.mk (pre ++ bePat ++ id.data)) = some id ∧
        DownloadSimple.extractVideoId (String.mk (pre ++ embedPat ++ id.data)) = some id ∧
        DownloadSimple.extractVideoId id = some id) := by
  intro id pre hlen hall hpre
  have hdl : id.data.length = 11 := hlen
  have hne : id.data ≠ [] := by
    intro h
    rw [h] at hdl
    exact absurd hdl (by decide)
  have hne_app : ∀ pat : List Char, pat ++ id.data ≠ [] := by
    intro pat h
    have h2 : pat.length + 11 = 0 := by
      simpa [List.length_append, hdl] using congrArg List.length h
    omega
  have hheadsWB : ∀ p ∈ [watchPat, bePat], p.head? = some 'y' := by decide
  have hheadsE : ∀ p ∈ [embedPat], p.head? = some 'y' := by decide
  have hdotWB : ∀ p ∈ [watchPat, bePat], '.' ∈ p := by decide
  refine ⟨⟨?_, ?_, ?_, ?_⟩, ⟨?_, ?_, ?_, ?_⟩⟩
  · refine extractVideoId_of_scan _ id ?_
    rw [List.append_assoc, scan1_append_ne_y pre _ hpre]
    exact scan1_pos _ _ (matchAt_watch id.data hne hall)
  · refine extractVideoId_of_scan _ id ?_
    rw [List.append_assoc, scan1_append_ne_y pre _ hpre]
    exact scan1_pos _ _ (matchAt_be id.data hne hall)
  · refine extractVideoId_of_scan _ id ?_
    rw [List.append_assoc, scan1_append_ne_y pre _ hpre]
    exact scan1_pos _ _ (matchAt_embed id.data hne hall)
  · exact extractVideoId_bare id hlen hall
  · refine downloadSimple_of_scan1 _ id ?_ ?_
    · rw [List.append_assoc, List.length_append, List.length_append, hdl,
        show watchPat.length = 20 from rfl]
      omega
    · rw [List.append_assoc, scanStrict_append_ne_y _ hheadsWB pre _ hpre]
      exact scanStrict_pos _ _ _ (hne_app watchPat)
        (matchAtStrict_head watchPat [bePat] id.data hdl hall)
  · refine downloadSimple_of_scan1 _ id ?_ ?_
    · rw [List.append_assoc, List.length_append, List.length_append, hdl,
        show bePat.length = 9 from rfl]
      omega
    · rw [List.append_assoc, scanStrict_append_ne_y _ hheadsWB pre _ hpre]
      refine scanStrict_pos _ _ _ (hne_app bePat) ?_
      rw [matchAtStrict, show matchLit watchPat (bePat ++ id.data) = none from by rfl]
      exact matchAtStrict_head bePat [] id.data hdl hall
  · refine downloadSimple_of_scan2 _ id ?_ ?_ ?_
    · rw [List.append_assoc, List.length_append, List.length_append, hdl,
        show embedPat.length = 18 from rfl]
      omega
    · rw [List.append_assoc, scanStrict_append_ne_y _ hheadsWB pre _ hpre]
      have hfail : matchAtStrict [watchPat, bePat] (embedPat ++ id.data) = none := by
        rw [matchAtStrict, show matchLit watchPat (embedPat ++ id.data) = none from by rfl,
          matchAtStrict, show matchLit bePat (embedPat ++ id.data) = none from by rfl,
          matchAtStrict]
      rw [scanStrict_step [watchPat, bePat] _ (hne_app embedPat) hfail]
      rw [show (embedPat ++ id.data).tail = "outube.com/embed/".data ++ id.data from rfl]
      rw [scanStrict_append_ne_y _ hheadsWB "outube.com/embed/".data _ (by decide)]
      exact scanStrict_none_of_idChar _ hdotWB id.data hall
    · rw [List.append_assoc, scanStrict_append_ne_y _ hheadsE pre _ hpre]
      exact scanStrict_pos _ _ _ (hne_app embedPat)
        (matchAtStrict_head embedPat [] id.data hdl hall)
  · exact downloadSimple_bare id hlen hall

/-- Closed instance of `resolver_four_forms` on the identifier
`dQw4w9WgXcQ` with the head `https://www.`. -/
theorem resolver_four_forms_witness :
    extractVideoId (String.mk ("https://www.".data ++ watchPat ++ "dQw4w9WgXcQ".data)) =
      some "dQw4w9WgXcQ" ∧
    DownloadSimple.extractVideoId "dQw4w9WgXcQ" = some "dQw4w9WgXcQ" :=
  ⟨(resolver_four_forms "dQw4w9WgXcQ" "https://www.".data
      (by decide) (by decide) (by decide)).1.1,
   (resolver_four_forms "dQw4w9WgXcQ" "https://www.".data
      (by decide) (by decide) (by decide)).2.2.2.2⟩

/-! ## C9: capture runs to the first delimiter, no length validation -/

/-- C9: the caption-pipeline resolver captures everything up to the first
`&`, newline, `?` or `#` and never checks that the capture has 11
characters: `youtu.be/abc` style URLs yield the 3-character `abc`. -/
theorem extractVideoId_no_length_validation :
    extractVideoId "https://youtu.be/abc" = some "abc" ∧
    ("abc" : String).length = 3 ∧
    extractVideoId "https://youtu.be/abc&t=1" = some "abc" ∧
    extractVideoId "https://www.youtube.com/watch?v=abc?t=1" = some "abc" ∧
    extractVideoId "https://www.youtube.com/embed/abc#x" = some "abc" ∧
    extractVideoId "https://youtu.be/abc\nx" = some "abc" := by
  exact ⟨by decide, by decide, by decide, by decide, by decide, by decide⟩

end Theorems

end Pipeline
